import Mathlib

/-!
A shallow embedding of `texar/torch/run/executor_utils.py` (texar-pytorch),
together with proofs about the registry normalizer (`_to_dict`, `to_dict`,
`to_metric_dict`), the metric-snapshot comparator (`MetricList`), the
progress tracker (`ProgressTracker.progress`) and the instance resolver
(`to_instance`).

Modelling conventions:
  * A Python `OrderedDict[str, T]` is modelled as an association list
    `OD T := List (String × T)` with unique keys; `d[k] = v` is `odInsert`
    (update in place if the key exists, append otherwise), `del d[k]` is
    `odErase`, `d[k]` is `odLookup`.
  * Python exceptions are modelled with `Except ExecError`.  The spec's
    error taxonomy maps `ValueError`s about configuration shape to
    `ErrKind.config`, capability (`isinstance`) failures to `ErrKind.type`;
    `KeyError`, `AttributeError` and `ZeroDivisionError` get their own kinds.
  * `Counter` is modelled as a function `String → Nat` (membership
    `name in counter` is `cnt name ≠ 0`, since counts never decrease).
  * The fallible `unambiguous_name_fn` (it may raise, e.g. an
    `AttributeError` when `to_metric_dict` applies it to a non-metric) is
    modelled as returning `Except ExecError String`.
-/

/-- Kinds of runtime errors, following the error taxonomy of the design
spec: `config` for malformed/ambiguous configuration (`ValueError`s about
shape), `typeErr` for failed capability checks (`isinstance` failures),
plus Python's `KeyError`, `AttributeError` and `ZeroDivisionError`. -/
inductive ErrKind : Type
  | config
  | typeErr
  | keyErr
  | attr
  | zeroDiv
deriving DecidableEq, Repr

/-- A raised Python exception: its taxonomy kind and its message. -/
structure ExecError : Type where
  kind : ErrKind
  msg : String
deriving DecidableEq, Repr

instance [DecidableEq ε] [DecidableEq α] : DecidableEq (Except ε α) := fun x y =>
  match x, y with
  | .ok a, .ok b => decidable_of_iff (a = b) (by simp)
  | .ok _, .error _ => .isFalse (by simp)
  | .error _, .ok _ => .isFalse (by simp)
  | .error e, .error f => decidable_of_iff (e = f) (by simp)

/-- Model of `OrderedDict[str, T]`: an association list with unique keys. -/
abbrev OD (α : Type) := List (String × α)

/-- Keys of an ordered dict, in order. -/
def odKeys (d : OD α) : List String := d.map Prod.fst

/-- Model of `d[k]` read access (first matching key; keys are unique). -/
def odLookup (k : String) : OD α → Option α
  | [] => none
  | (k', v') :: rest => if k' = k then some v' else odLookup k rest

/-- Model of `d[k] = v`: update the value in place if `k` is present,
append `(k, v)` at the end otherwise (Python dict insertion order). -/
def odInsert (k : String) (v : α) : OD α → OD α
  | [] => [(k, v)]
  | (k', v') :: rest =>
      if k' = k then (k, v) :: rest else (k', v') :: odInsert k v rest

/-- Model of `del d[k]`: remove the (unique) entry with key `k`. -/
def odErase (k : String) : OD α → OD α
  | [] => []
  | (k', v') :: rest => if k' = k then rest else (k', v') :: odErase k rest

/-- Model of `OrderedDict(ds)`: insert the entries of `ds` in order into an
empty dict.  On a genuine Python mapping (unique keys) this is the identity. -/
def odFromList (d : OD α) : OD α :=
  d.foldl (fun acc p => odInsert p.1 p.2 acc) []

/-- One element of the sequence form of an input spec: either a bare value,
or an explicit `(name, value)` 2-tuple. -/
inductive SpecItem (α : Type) : Type
  | plain (v : α)
  | pair (name : String) (v : α)
deriving DecidableEq, Repr

/-- The polymorphic input accepted by `_to_dict`
(`OptionalDict = Optional[Union[T, List[Union[T, Tuple[str, T]]], Dict[str, T]]]`).
A single non-list non-dict item is `single` (it may itself be a 2-tuple,
which the loop unpacks); a keyed mapping records whether it is an
`OrderedDict` (`isOrdered`), which `to_metric_dict` checks. -/
inductive OptionalDict (α : Type) : Type
  | none
  | dict (isOrdered : Bool) (entries : OD α)
  | list (items : List (SpecItem α))
  | single (item : SpecItem α)

/-- Resolution of one loop item: `if isinstance(item, tuple): name, item = item
else: name = default_name_fn(idx, item)`. -/
def resolveItem (defaultNameFn : Nat → α → String) (idx : Nat) :
    SpecItem α → String × α
  | .pair n v => (n, v)
  | .plain v => (defaultNameFn idx v, v)

/-- Model of `counter.update([name])`. -/
def counterBump (cnt : String → Nat) (name : String) : String → Nat :=
  fun m => if m = name then cnt m + 1 else cnt m

/-- The main loop of `_to_dict` over the sequence form `xs`, carrying the
result dict `d` and the occurrence counter `cnt`.  `name not in counter`
is `cnt name = 0`.  On the second occurrence of a name the previously
inserted entry is re-keyed with `unambiguous_name_fn(name, prev_item, 1)`
(insert, then `del` the old key), and every repeated occurrence is keyed
with `unambiguous_name_fn(name, item, cnt + 1)`. -/
def toDictLoop (unamb : String → α → Nat → Except ExecError String)
    (defaultNameFn : Nat → α → String) :
    List (SpecItem α) → Nat → OD α → (String → Nat) →
      Except ExecError (OD α)
  | [], _, d, _ => .ok d
  | it :: rest, idx, d, cnt =>
      if cnt (resolveItem defaultNameFn idx it).1 = 0 then
        toDictLoop unamb defaultNameFn rest (idx + 1)
          (odInsert (resolveItem defaultNameFn idx it).1
            (resolveItem defaultNameFn idx it).2 d)
          (counterBump cnt (resolveItem defaultNameFn idx it).1)
      else if cnt (resolveItem defaultNameFn idx it).1 = 1 then
        match odLookup (resolveItem defaultNameFn idx it).1 d with
        | Option.none => .error ⟨.keyErr, (resolveItem defaultNameFn idx it).1⟩
        | Option.some prev =>
          match unamb (resolveItem defaultNameFn idx it).1 prev 1 with
          | .error e => .error e
          | .ok k1 =>
            match unamb (resolveItem defaultNameFn idx it).1
                (resolveItem defaultNameFn idx it).2
                (cnt (resolveItem defaultNameFn idx it).1 + 1) with
            | .error e => .error e
            | .ok k2 =>
              toDictLoop unamb defaultNameFn rest (idx + 1)
                (odInsert k2 (resolveItem defaultNameFn idx it).2
                  (odErase (resolveItem defaultNameFn idx it).1
                    (odInsert k1 prev d)))
                (counterBump cnt (resolveItem defaultNameFn idx it).1)
      else
        match unamb (resolveItem defaultNameFn idx it).1
            (resolveItem defaultNameFn idx it).2
            (cnt (resolveItem defaultNameFn idx it).1 + 1) with
        | .error e => .error e
        | .ok k2 =>
          toDictLoop unamb defaultNameFn rest (idx + 1)
            (odInsert k2 (resolveItem defaultNameFn idx it).2 d)
            (counterBump cnt (resolveItem defaultNameFn idx it).1)

/-- Model of `_to_dict(ds, unambiguous_name_fn, default_name_fn)`. -/
def _to_dict (unamb : String → α → Nat → Except ExecError String)
    (defaultNameFn : Nat → α → String) :
    OptionalDict α → Except ExecError (OD α)
  | .none => .ok []
  | .dict _ entries => .ok (odFromList entries)
  | .list items => toDictLoop unamb defaultNameFn items 0 [] (fun _ => 0)
  | .single it => toDictLoop unamb defaultNameFn [it] 0 [] (fun _ => 0)

/-- Lift an infallible naming function into the fallible interface. -/
def pureNameFn (f : String → α → Nat → String) :
    String → α → Nat → Except ExecError String :=
  fun n v c => .ok (f n v c)

/-- Model of `to_dict(xs, default_name)`: generic naming policy, with
`unambiguous_name_fn` appending `.{cnt}` and `default_name_fn` returning
the fixed default label if provided, else the stringified index. -/
def to_dict (xs : OptionalDict α) (default_name : Option String) :
    Except ExecError (OD α) :=
  _to_dict
    (pureNameFn (fun name _ cnt => name ++ "." ++ toString cnt))
    (fun idx _ =>
      match default_name with
      | Option.some s => s
      | Option.none => toString idx)
    xs

/-- A metric capability object (`texar.torch.run.metric.Metric`), reduced to
the pieces `executor_utils` uses: its runtime class (`className` models
`type(metric)` / `__class__.__name__`), `pred_name`, `label_name`, the
current `value()`, and the three-way comparator `better` (`none` is a tie). -/
structure Metric (α : Type) : Type where
  className : String
  pred_name : String
  label_name : Option String
  value : α
  better : α → α → Option Bool

/-- A value handed to `to_metric_dict`: either an actual `Metric`, or some
other Python object, kept abstract as its `repr` string and its class name
(which is all `to_metric_dict` can extract from it). -/
inductive MItem (α : Type) : Type
  | metric (m : Metric α)
  | other (rep : String) (tyName : String)

/-- Model of `to_metric_dict`'s local `unambiguous_name_fn`:
`f"{name}_{metric.pred_name}"`, then `f"_{metric.label_name}"` appended when
the label name is present.  On a non-metric object the attribute access
`metric.pred_name` raises an `AttributeError`. -/
def metricUnambNameFn : String → MItem α → Nat → Except ExecError String
  | name, .metric m, _ =>
      match m.label_name with
      | Option.none => .ok (name ++ "_" ++ m.pred_name)
      | Option.some l => .ok (name ++ "_" ++ m.pred_name ++ "_" ++ l)
  | _, .other _ ty, _ =>
      .error ⟨.attr, ty ++ " object has no attribute pred_name"⟩

/-- Model of `to_metric_dict`'s local `default_name_fn`:
`metric.__class__.__name__` (defined on every Python object). -/
def metricDefaultNameFn : Nat → MItem α → String
  | _, .metric m => m.className
  | _, .other _ ty => ty

/-- The post-normalization capability check of `to_metric_dict`: the first
value that is not a `Metric` raises a `ValueError` naming its type. -/
def checkMetrics : List (MItem α) → Except ExecError Unit
  | [] => .ok ()
  | .metric _ :: rest => checkMetrics rest
  | .other _ ty :: _ =>
      .error ⟨.typeErr, "All metrics must be of class Metric, but found " ++ ty⟩

/-- Whether the spec is a keyed mapping without the order-preserving
(`OrderedDict`) contract, i.e. Python's
`isinstance(metrics, dict) and not isinstance(metrics, OrderedDict)`. -/
def isUnorderedDict : OptionalDict α → Bool
  | .dict false _ => true
  | _ => false

/-- Model of `to_metric_dict(metrics)`: reject a plain (non-`OrderedDict`)
mapping, normalize with the metric naming policy, then check that every
resulting value is a `Metric`. -/
def to_metric_dict (metrics : OptionalDict (MItem α)) :
    Except ExecError (OD (MItem α)) :=
  if isUnorderedDict metrics then
    .error ⟨.config, "Metrics dictionary must be of type OrderedDict"⟩
  else
    match _to_dict metricUnambNameFn metricDefaultNameFn metrics with
    | .error e => .error e
    | .ok d =>
      match checkMetrics (d.map Prod.snd) with
      | .error e => .error e
      | .ok _ => .ok d

/-- A `MetricList` snapshot: the metric registry plus the captured values
dictionary (`self.values`). -/
structure MetricList (α : Type) : Type where
  metrics : OD (Metric α)
  values : OD α

/-- Model of `MetricList.__init__` with `values=None`: capture the current
value of every metric, keyed by the registry names. -/
def MetricList.ofMetrics (metrics : OD (Metric α)) : MetricList α :=
  ⟨metrics, metrics.map (fun p => (p.1, p.2.value))⟩

/-- The error raised when two metric lists with different base metrics are
compared. -/
def cmpErr : ExecError :=
  ⟨.config, "Cannot compare two metric lists with different base metrics"⟩

/-- A paired position of two zipped registries at which `_compare_metrics`
raises (`name != other_name or type(metric) is not type(other_metric)`):
the names differ, or the metrics have different runtime classes. -/
def pairMismatch (p : (String × Metric α) × (String × Metric α)) : Prop :=
  p.1.1 ≠ p.2.1 ∨ p.1.2.className ≠ p.2.2.className

instance (p : (String × Metric α) × (String × Metric α)) :
    Decidable (pairMismatch p) := by
  unfold pairMismatch
  infer_instance

/-- The loop of `_compare_metrics` over
`zip(self.metrics.items(), other.metrics.items())` (which truncates at the
shorter registry): raise on the first paired position whose names differ or
whose metrics have different runtime classes. -/
def compareLoop : List ((String × Metric α) × (String × Metric α)) →
    Except ExecError Unit
  | [] => .ok ()
  | p :: rest =>
      if pairMismatch p then .error cmpErr
      else compareLoop rest

/-- Model of `MetricList._compare_metrics` (the `isinstance(other, MetricList)`
guard is enforced by typing in this embedding). -/
def MetricList._compare_metrics (self other : MetricList α) :
    Except ExecError Unit :=
  compareLoop (self.metrics.zip other.metrics)

/-- Model of `self.values[name]`: a missing key raises a `KeyError`. -/
def lookupVal (vals : OD α) (name : String) : Except ExecError α :=
  match odLookup name vals with
  | Option.some v => .ok v
  | Option.none => .error ⟨.keyErr, name⟩

/-- The generator of `MetricList.__eq__`:
`all(self.values[name] == other.values[name] for name in self.metrics)`,
short-circuiting at the first `false` (so later `KeyError`s are not raised). -/
def eqLoop [DecidableEq α] (self other : MetricList α) :
    List (String × Metric α) → Except ExecError Bool
  | [] => .ok true
  | p :: rest =>
      match lookupVal self.values p.1 with
      | .error e => .error e
      | .ok a =>
        match lookupVal other.values p.1 with
        | .error e => .error e
        | .ok b =>
          if a = b then eqLoop self other rest else .ok false

/-- Model of `MetricList.__eq__`. -/
def MetricList.eq [DecidableEq α] (self other : MetricList α) :
    Except ExecError Bool :=
  match MetricList._compare_metrics self other with
  | .error e => .error e
  | .ok _ => eqLoop self other self.metrics

/-- The loop of `MetricList.__gt__`: in registry order, the first metric
whose `better` is not a tie (`none`) decides; if every metric ties, the
result is `false`. -/
def gtLoop (self other : MetricList α) :
    List (String × Metric α) → Except ExecError Bool
  | [] => .ok false
  | p :: rest =>
      match lookupVal self.values p.1 with
      | .error e => .error e
      | .ok a =>
        match lookupVal other.values p.1 with
        | .error e => .error e
        | .ok b =>
          match p.2.better a b with
          | Option.some cmp => .ok cmp
          | Option.none => gtLoop self other rest

/-- Model of `MetricList.__gt__`. -/
def MetricList.gt (self other : MetricList α) : Except ExecError Bool :=
  match MetricList._compare_metrics self other with
  | .error e => .error e
  | .ok _ => gtLoop self other self.metrics

/-- Specification-side lexicographic decision over a list of three-way
comparison results: the first non-tie decides, all ties give `false`. -/
def lexDecide : List (Option Bool) → Bool
  | [] => false
  | Option.some b :: _ => b
  | Option.none :: rest => lexDecide rest

/-- The list of `metric.better(self.values[name], other.values[name])`
results along a registry, without short-circuiting (used to state the
lexicographic characterization of `__gt__`). -/
def betterResults (self other : MetricList α) :
    List (String × Metric α) → Except ExecError (List (Option Bool))
  | [] => .ok []
  | p :: rest =>
      match lookupVal self.values p.1 with
      | .error e => .error e
      | .ok a =>
        match lookupVal other.values p.1 with
        | .error e => .error e
        | .ok b =>
          match betterResults self other rest with
          | .error e => .error e
          | .ok rs => .ok (p.2.better a b :: rs)

/-- The state of a `ProgressTracker` (`start_time` and wall-clock speed are
outside this model).  Python's float arithmetic in `progress` is modelled
exactly over `ℚ`; every concrete instance proved below is exactly
representable in binary floating point as well. -/
structure ProgressTracker : Type where
  size : Option Nat
  n_examples : Nat

/-- Model of `ProgressTracker.__init__(size)`. -/
def ProgressTracker.new (size : Option Nat) : ProgressTracker := ⟨size, 0⟩

/-- Model of `ProgressTracker.add(n_examples)`. -/
def ProgressTracker.add (t : ProgressTracker) (n : Nat) : ProgressTracker :=
  ⟨t.size, t.n_examples + n⟩

/-- Model of `ProgressTracker.progress`: `None` when the total size is
unknown, otherwise `n_examples / size * 100` (Python raises
`ZeroDivisionError` when `size == 0`). -/
def ProgressTracker.progress (t : ProgressTracker) :
    Except ExecError (Option ℚ) :=
  match t.size with
  | Option.none => .ok Option.none
  | Option.some s =>
      if s = 0 then .error ⟨.zeroDiv, "division by zero"⟩
      else .ok (Option.some ((t.n_examples : ℚ) / (s : ℚ) * 100))

/-- The `Instance[T] = Union[T, Dict[str, Any]]` argument of `to_instance`:
either an already-constructed object or a `{type, kwargs}` descriptor
(kwargs values have some type `υ`). -/
inductive InstanceSpec (α υ : Type) : Type
  | direct (v : α)
  | descriptor (typeName : String) (kwargs : OD υ)

/-- Model of the dict merge `{**a, **b}`: entries of `b` override/extend `a`. -/
def odUnion (a b : OD υ) : OD υ :=
  b.foldl (fun d p => odInsert p.1 p.2 d) a

/-- Model of `to_instance(typ, instance, modules, extra_kwargs)`.  The type
`typ` is modelled by its membership test `isTyp` (`isinstance`) and its
printed form `typRepr`; `get_instance` lives in `texar.torch.utils.utils`,
outside this module, and is therefore passed as a parameter. -/
def to_instance (isTyp : α → Bool) (reprInst : α → String) (typRepr : String)
    (get_instance : String → OD υ → List String → Except ExecError α)
    (inst : Option (InstanceSpec α υ)) (modules : List String)
    (extra_kwargs : Option (OD υ)) : Except ExecError (Option α) :=
  match inst with
  | Option.none => .ok Option.none
  | Option.some (.direct v) =>
      if isTyp v then .ok (Option.some v)
      else .error ⟨.typeErr,
        "The instance " ++ reprInst v ++ " is not of type " ++ typRepr⟩
  | Option.some (.descriptor ty kwargs) =>
      match get_instance ty (odUnion kwargs (extra_kwargs.getD [])) modules with
      | .error e => .error e
      | .ok v =>
          if isTyp v then .ok (Option.some v)
          else .error ⟨.typeErr,
            "The instance " ++ reprInst v ++ " is not of type " ++ typRepr⟩

/-- Values of the sequence form of an input spec, in order. -/
def itemValues : List (SpecItem α) → List α
  | [] => []
  | .plain v :: rest => v :: itemValues rest
  | .pair _ v :: rest => v :: itemValues rest

/-- Base names resolved for the sequence form, starting at index `idx`. -/
def baseNames (dfn : Nat → α → String) : Nat → List (SpecItem α) → List String
  | _, [] => []
  | idx, it :: rest => (resolveItem dfn idx it).1 :: baseNames dfn (idx + 1) rest

/-- Number of items an input spec supplies. -/
def specItemCount : OptionalDict α → Nat
  | .none => 0
  | .dict _ e => e.length
  | .list items => items.length
  | .single _ => 1

/-- Base names an input spec resolves to (empty for the `none`/`dict` forms,
whose processing never consults the naming functions). -/
def specBaseNames (dfn : Nat → α → String) : OptionalDict α → List String
  | .list items => baseNames dfn 0 items
  | .single it => baseNames dfn 0 [it]
  | _ => []

/-- Item values an input spec supplies to the naming functions. -/
def specValues : OptionalDict α → List α
  | .list items => itemValues items
  | .single it => itemValues [it]
  | _ => []

/-- Validity of an input spec: a keyed mapping is a genuine Python mapping,
so its keys are unique; the other forms are always valid. -/
def specValid : OptionalDict α → Prop
  | .dict _ e => (odKeys e).Nodup
  | _ => True

/-- A concrete metric whose `better` always ties. -/
def accMetric : Metric Nat :=
  { className := "Accuracy", pred_name := "preds", label_name := Option.none,
    value := 0, better := fun _ _ => Option.none }

/-- A second concrete metric class, distinct from `accMetric`. -/
def f1Metric : Metric Nat :=
  { className := "F1", pred_name := "preds", label_name := Option.none,
    value := 0, better := fun _ _ => Option.none }

/-- A concrete metric whose `better` always returns `true`. -/
def winMetric : Metric Nat :=
  { className := "WinMetric", pred_name := "preds", label_name := Option.none,
    value := 0, better := fun _ _ => Option.some true }

/-- A snapshot over the one-metric registry `["a"]`. -/
def mlShort : MetricList Nat := ⟨[("a", accMetric)], [("a", 1)]⟩

/-- A snapshot over the two-metric registry `["a", "b"]`, whose value at
`"a"` differs from `mlShort`'s. -/
def mlLong : MetricList Nat :=
  ⟨[("a", accMetric), ("b", f1Metric)], [("a", 2), ("b", 3)]⟩

/-- A snapshot over the registry `["x"]`. -/
def mlNameX : MetricList Nat := ⟨[("x", accMetric)], [("x", 1)]⟩

/-- A snapshot over the registry `["y"]` (same metric class as `mlNameX`). -/
def mlNameY : MetricList Nat := ⟨[("y", accMetric)], [("y", 1)]⟩

/-- A snapshot over metrics `[A, B]` where `A` always ties and `B` always
says the left value is better. -/
def mlLexX : MetricList Nat :=
  ⟨[("A", accMetric), ("B", winMetric)], [("A", 1), ("B", 1)]⟩

/-- A second snapshot over the same `[A, B]` registry. -/
def mlLexY : MetricList Nat :=
  ⟨[("A", accMetric), ("B", winMetric)], [("A", 2), ("B", 0)]⟩

lemma odKeys_append (d e : OD α) : odKeys (d ++ e) = odKeys d ++ odKeys e := by
  simp [odKeys]

lemma odKeys_cons (k : String) (v : α) (d : OD α) :
    odKeys ((k, v) :: d) = k :: odKeys d := rfl

lemma odKeys_nil : odKeys ([] : OD α) = [] := rfl

lemma mem_odKeys_cons {k k' : String} {v' : α} {d : OD α} :
    k ∈ odKeys ((k', v') :: d) ↔ k = k' ∨ k ∈ odKeys d := by
  rw [odKeys_cons]
  exact List.mem_cons

lemma odLookup_isSome {k : String} {d : OD α} (h : k ∈ odKeys d) :
    ∃ v, odLookup k d = Option.some v := by
  induction d with
  | nil => simp [odKeys] at h
  | cons p rest ih =>
      obtain ⟨k', v'⟩ := p
      by_cases hk : k' = k
      · exact ⟨v', by simp [odLookup, hk]⟩
      · have : k ∈ odKeys rest := by
          rcases mem_odKeys_cons.mp h with h1 | h1
          · exact absurd h1.symm hk
          · exact h1
        obtain ⟨v, hv⟩ := ih this
        exact ⟨v, by simp [odLookup, hk, hv]⟩

lemma odLookup_mem {k : String} {v : α} {d : OD α}
    (h : odLookup k d = Option.some v) : (k, v) ∈ d := by
  induction d with
  | nil => simp [odLookup] at h
  | cons p rest ih =>
      obtain ⟨k', v'⟩ := p
      by_cases hk : k' = k
      · subst hk
        simp [odLookup] at h
        simp [h]
      · simp [odLookup, hk] at h
        exact List.mem_cons_of_mem _ (ih h)

lemma odInsert_of_not_mem {k : String} {v : α} {d : OD α}
    (h : k ∉ odKeys d) : odInsert k v d = d ++ [(k, v)] := by
  induction d with
  | nil => simp [odInsert]
  | cons p rest ih =>
      obtain ⟨k', v'⟩ := p
      have hk : k' ≠ k := by
        intro he
        exact h (mem_odKeys_cons.mpr (Or.inl he.symm))
      have hrest : k ∉ odKeys rest := by
        intro hm
        exact h (mem_odKeys_cons.mpr (Or.inr hm))
      simp [odInsert, hk, ih hrest]

lemma odKeys_odInsert_sub {k x : String} {v : α} {d : OD α}
    (h : x ∈ odKeys (odInsert k v d)) : x = k ∨ x ∈ odKeys d := by
  induction d with
  | nil => simpa [odInsert, odKeys] using h
  | cons p rest ih =>
      obtain ⟨k', v'⟩ := p
      by_cases hk : k' = k
      · rw [show odInsert k v ((k', v') :: rest) = (k, v) :: rest by
            simp [odInsert, hk]] at h
        rcases mem_odKeys_cons.mp h with h1 | h1
        · exact Or.inl h1
        · exact Or.inr (mem_odKeys_cons.mpr (Or.inr h1))
      · rw [show odInsert k v ((k', v') :: rest) = (k', v') :: odInsert k v rest by
            simp [odInsert, hk]] at h
        rcases mem_odKeys_cons.mp h with h1 | h1
        · exact Or.inr (mem_odKeys_cons.mpr (Or.inl h1))
        · rcases ih h1 with h2 | h2
          · exact Or.inl h2
          · exact Or.inr (mem_odKeys_cons.mpr (Or.inr h2))

lemma odKeys_odInsert_nodup {k : String} {v : α} {d : OD α}
    (h : (odKeys d).Nodup) : (odKeys (odInsert k v d)).Nodup := by
  induction d with
  | nil => simp [odInsert, odKeys]
  | cons p rest ih =>
      obtain ⟨k', v'⟩ := p
      rw [odKeys_cons, List.nodup_cons] at h
      by_cases hk : k' = k
      · subst hk
        simpa [odInsert, odKeys, List.nodup_cons] using h
      · have : (odKeys (odInsert k v rest)).Nodup := ih h.2
        rw [show odInsert k v ((k', v') :: rest)
              = (k', v') :: odInsert k v rest by simp [odInsert, hk]]
        rw [odKeys_cons, List.nodup_cons]
        refine ⟨fun hm => ?_, this⟩
        rcases odKeys_odInsert_sub hm with h1 | h1
        · exact hk h1
        · exact h.1 h1

lemma odErase_of_not_mem {k : String} {d : OD α} (h : k ∉ odKeys d) :
    odErase k d = d := by
  induction d with
  | nil => simp [odErase]
  | cons p rest ih =>
      obtain ⟨k', v'⟩ := p
      have hk : k' ≠ k := fun he => h (mem_odKeys_cons.mpr (Or.inl he.symm))
      have hrest : k ∉ odKeys rest :=
        fun hm => h (mem_odKeys_cons.mpr (Or.inr hm))
      simp [odErase, hk, ih hrest]

lemma odKeys_odErase (k : String) (d : OD α) :
    odKeys (odErase k d) = (odKeys d).erase k := by
  induction d with
  | nil => simp [odErase, odKeys]
  | cons p rest ih =>
      obtain ⟨k', v'⟩ := p
      by_cases hk : k' = k
      · rw [show odErase k ((k', v') :: rest) = rest by simp [odErase, hk],
          odKeys_cons, List.erase_cons]
        simp [hk]
      · rw [show odErase k ((k', v') :: rest) = (k', v') :: odErase k rest by
            simp [odErase, hk],
          odKeys_cons, odKeys_cons, List.erase_cons]
        simp [hk, ih]

lemma odErase_length {k : String} {d : OD α} (h : k ∈ odKeys d) :
    (odErase k d).length + 1 = d.length := by
  induction d with
  | nil => simp [odKeys] at h
  | cons p rest ih =>
      obtain ⟨k', v'⟩ := p
      by_cases hk : k' = k
      · simp [odErase, hk]
      · have : k ∈ odKeys rest := by
          rcases mem_odKeys_cons.mp h with h1 | h1
          · exact absurd h1.symm hk
          · exact h1
        simp [odErase, hk, ← ih this]

lemma odErase_append_right {k k1 : String} {w : α} (d : OD α) (h : k1 ≠ k) :
    odErase k (d ++ [(k1, w)]) = odErase k d ++ [(k1, w)] := by
  induction d with
  | nil => simp [odErase, h]
  | cons p rest ih =>
      obtain ⟨k', v'⟩ := p
      by_cases hk : k' = k
      · simp [odErase, hk]
      · simp [odErase, hk, ih]

lemma odInsertAll_nodup (d : OD α) : ∀ acc : OD α, (odKeys acc).Nodup →
    (odKeys (d.foldl (fun acc p => odInsert p.1 p.2 acc) acc)).Nodup := by
  induction d with
  | nil => intro acc h; simpa using h
  | cons p rest ih =>
      intro acc h
      simpa using ih (odInsert p.1 p.2 acc) (odKeys_odInsert_nodup h)

lemma odFromList_nodup (d : OD α) : (odKeys (odFromList d)).Nodup :=
  odInsertAll_nodup d [] (by simp [odKeys])

lemma odInsertAll_eq (d : OD α) : ∀ acc : OD α,
    (odKeys d).Nodup → (∀ x ∈ odKeys d, x ∉ odKeys acc) →
    d.foldl (fun acc p => odInsert p.1 p.2 acc) acc = acc ++ d := by
  induction d with
  | nil => intro acc _ _; simp
  | cons p rest ih =>
      intro acc hnd hdisj
      obtain ⟨k, v⟩ := p
      rw [odKeys_cons, List.nodup_cons] at hnd
      have hk : k ∉ odKeys acc := hdisj k (mem_odKeys_cons.mpr (Or.inl rfl))
      have step : List.foldl (fun acc p => odInsert p.1 p.2 acc) acc ((k, v) :: rest)
          = List.foldl (fun acc p => odInsert p.1 p.2 acc) (acc ++ [(k, v)]) rest := by
        simp [List.foldl_cons, odInsert_of_not_mem hk]
      rw [step, ih (acc ++ [(k, v)]) hnd.2 ?_]
      · simp
      · intro x hx
        rw [odKeys_append]
        intro hm
        rcases List.mem_append.mp hm with h1 | h1
        · exact hdisj x (mem_odKeys_cons.mpr (Or.inr hx)) h1
        · rcases mem_odKeys_cons.mp h1 with h2 | h2
          · exact hnd.1 (h2 ▸ hx)
          · simp [odKeys] at h2

lemma odFromList_eq {d : OD α} (h : (odKeys d).Nodup) : odFromList d = d := by
  have := odInsertAll_eq d [] h (by simp [odKeys])
  simpa [odFromList] using this

lemma mem_odKeys_of_mem {p : String × α} {d : OD α} (h : p ∈ d) :
    p.1 ∈ odKeys d :=
  List.mem_map_of_mem Prod.fst h

lemma nodup_append_single {l : List String} {a : String} (h : l.Nodup)
    (ha : a ∉ l) : (l ++ [a]).Nodup := by
  rw [List.nodup_append]
  refine ⟨h, List.nodup_singleton a, fun x hx hxa => ?_⟩
  rw [List.mem_singleton.mp hxa] at hx
  exact ha hx

lemma odKeys_odErase_nodup {k : String} {d : OD α}
    (h : (odKeys d).Nodup) : (odKeys (odErase k d)).Nodup := by
  rw [odKeys_odErase]
  exact h.erase k

lemma odErase_mem_sub {k : String} {p : String × α} {d : OD α}
    (h : p ∈ odErase k d) : p ∈ d := by
  induction d with
  | nil => simp [odErase] at h
  | cons q rest ih =>
      obtain ⟨k', v'⟩ := q
      by_cases hk : k' = k
      · rw [show odErase k ((k', v') :: rest) = rest by simp [odErase, hk]] at h
        exact List.mem_cons_of_mem _ h
      · rw [show odErase k ((k', v') :: rest) = (k', v') :: odErase k rest by
            simp [odErase, hk]] at h
        rcases List.mem_cons.mp h with h1 | h1
        · simp [h1]
        · exact List.mem_cons_of_mem _ (ih h1)

lemma counterBump_self (cnt : String → Nat) (name : String) :
    counterBump cnt name name = cnt name + 1 := by
  simp [counterBump]

lemma counterBump_other {cnt : String → Nat} {name m : String} (h : m ≠ name) :
    counterBump cnt name m = cnt m := by
  simp [counterBump, h]

lemma counterBump_ge (cnt : String → Nat) (name m : String) :
    cnt m ≤ counterBump cnt name m := by
  by_cases h : m = name <;> simp [counterBump, h]

lemma itemValues_cons (dfn : Nat → α → String) (idx : Nat) (it : SpecItem α)
    (rest : List (SpecItem α)) :
    itemValues (it :: rest) = (resolveItem dfn idx it).2 :: itemValues rest := by
  cases it <;> rfl

lemma toDictLoop_nodup (u : String → α → Nat → Except ExecError String)
    (dfn : Nat → α → String) :
    ∀ (xs : List (SpecItem α)) (idx : Nat) (d : OD α) (cnt : String → Nat)
      (d' : OD α), (odKeys d).Nodup →
      toDictLoop u dfn xs idx d cnt = .ok d' → (odKeys d').Nodup := by
  intro xs
  induction xs with
  | nil =>
      intro idx d cnt d' hnd h
      simp only [toDictLoop] at h
      cases h
      exact hnd
  | cons it rest ih =>
      intro idx d cnt d' hnd h
      simp only [toDictLoop] at h
      by_cases h0 : cnt (resolveItem dfn idx it).1 = 0
      · rw [if_pos h0] at h
        exact ih _ _ _ _ (odKeys_odInsert_nodup hnd) h
      · rw [if_neg h0] at h
        by_cases h1 : cnt (resolveItem dfn idx it).1 = 1
        · rw [if_pos h1] at h
          split at h
          · exact absurd h (by simp)
          · split at h
            · exact absurd h (by simp)
            · split at h
              · exact absurd h (by simp)
              · exact ih _ _ _ _
                  (odKeys_odInsert_nodup
                    (odKeys_odErase_nodup (odKeys_odInsert_nodup hnd))) h
        · rw [if_neg h1] at h
          split at h
          · exact absurd h (by simp)
          · exact ih _ _ _ _ (odKeys_odInsert_nodup hnd) h

lemma _to_dict_nodup {u : String → α → Nat → Except ExecError String}
    {dfn : Nat → α → String} {spec : OptionalDict α} {d : OD α}
    (h : _to_dict u dfn spec = .ok d) : (odKeys d).Nodup := by
  cases spec with
  | none =>
      simp only [_to_dict] at h
      cases h
      simp [odKeys]
  | dict b e =>
      simp only [_to_dict] at h
      cases h
      exact odFromList_nodup e
  | list items =>
      exact toDictLoop_nodup u dfn items 0 [] (fun _ => 0) d (by simp [odKeys]) h
  | single it =>
      exact toDictLoop_nodup u dfn [it] 0 [] (fun _ => 0) d (by simp [odKeys]) h

/-- C5: normalizing the list `[5, 5, 5]` with `default_name_fn` returning
the constant `"m"` and `unambiguous_name_fn` returning `f"{name}.{count}"`
yields a registry with exactly the keys `"m.1"`, `"m.2"`, `"m.3"` in that
order, each mapped to `5`. -/
theorem C5_normalize_example :
    _to_dict (pureNameFn fun n _ c => n ++ "." ++ toString c) (fun _ _ => "m")
        (.list [.plain (5 : Nat), .plain 5, .plain 5])
      = .ok [("m.1", 5), ("m.2", 5), ("m.3", 5)] := by
  decide

/-- C9: a single input item that is a 2-tuple `(n, v)` is unpacked as an
explicit name/value pair: the result is the one-entry registry mapping `n`
to `v`, and the tuple itself is never stored as a value. -/
theorem C9_single_pair_unpacked {α : Type}
    (unamb : String → α → Nat → Except ExecError String)
    (dfn : Nat → α → String) (n : String) (v : α) :
    _to_dict unamb dfn (.single (.pair n v)) = .ok [(n, v)] := by
  simp [_to_dict, toDictLoop, resolveItem, odInsert]

/-- C10: `to_instance` returns `None` without raising whenever the given
instance is `None`, for every type, resolver, module list and extra keyword
arguments; the capability check is only applied to non-`None` inputs. -/
theorem C10_to_instance_none {α υ : Type} (isTyp : α → Bool)
    (reprInst : α → String) (typRepr : String)
    (get_instance : String → OD υ → List String → Except ExecError α)
    (modules : List String) (extra_kwargs : Option (OD υ)) :
    to_instance isTyp reprInst typRepr get_instance Option.none modules
        extra_kwargs = .ok Option.none := rfl

/-- C7: an already-keyed order-preserving mapping passes through `_to_dict`
unchanged, in content and order, regardless of the naming functions; and,
since every registry `_to_dict` returns has unique keys, re-applying the
normalizer to its own output is the identity. -/
theorem C7_dict_passthrough {α : Type} :
    (∀ (u : String → α → Nat → Except ExecError String)
       (dfn : Nat → α → String) (b : Bool) (entries : OD α),
       (odKeys entries).Nodup →
       _to_dict u dfn (.dict b entries) = .ok entries)
  ∧ (∀ (u u' : String → α → Nat → Except ExecError String)
       (dfn dfn' : Nat → α → String) (spec : OptionalDict α) (d : OD α)
       (b : Bool),
       _to_dict u dfn spec = .ok d →
       _to_dict u' dfn' (.dict b d) = .ok d) := by
  constructor
  · intro u dfn b entries h
    simp [_to_dict, odFromList_eq h]
  · intro u u' dfn dfn' spec d b h
    simp [_to_dict, odFromList_eq (_to_dict_nodup h)]

/-- C7 witness: a concrete two-entry ordered mapping passes through
unchanged, and re-normalizing the output of a list normalization returns it
unchanged. -/
theorem C7_dict_passthrough_witness :
    _to_dict (pureNameFn fun n _ c => n ++ "." ++ toString c)
        (fun i _ => toString i) (.dict true [("a", (1 : Nat)), ("b", 2)])
      = .ok [("a", 1), ("b", 2)]
  ∧ _to_dict (pureNameFn fun n _ c => n ++ "." ++ toString c)
        (fun i _ => toString i) (.dict true [("m.1", (5 : Nat)), ("m.2", 5)])
      = .ok [("m.1", 5), ("m.2", 5)] :=
  ⟨C7_dict_passthrough.1 _ _ true [("a", 1), ("b", 2)] (by decide),
   C7_dict_passthrough.2
     (pureNameFn fun n _ c => n ++ "." ++ toString c)
     (pureNameFn fun n _ c => n ++ "." ++ toString c)
     (fun _ _ => "m") (fun i _ => toString i)
     (.list [.plain 5, .plain 5]) [("m.1", 5), ("m.2", 5)] true (by decide)⟩

/-- C8 counterexample: a tracker constructed with the known total `0`
raises a `ZeroDivisionError` in `progress()` instead of returning
`n_examples / size * 100`, so the claim as stated fails at `size = 0`. -/
theorem C8_progress_counterexample :
    ((ProgressTracker.new (Option.some 0)).add 50).progress
      = .error ⟨.zeroDiv, "division by zero"⟩ := rfl

/-- C8 amended: `progress()` returns `None` exactly when the tracker was
constructed with an unknown total, and for a nonzero known total it returns
`n_examples / size * 100`. -/
theorem C8_progress_amended :
    (∀ t : ProgressTracker, t.size = Option.none →
       t.progress = .ok Option.none)
  ∧ (∀ (t : ProgressTracker) (s : Nat), t.size = Option.some s →
       t.progress ≠ .ok Option.none)
  ∧ (∀ (t : ProgressTracker) (s : Nat), t.size = Option.some s → s ≠ 0 →
       t.progress = .ok (Option.some ((t.n_examples : ℚ) / (s : ℚ) * 100))) := by
  refine ⟨fun t h => ?_, fun t s h => ?_, fun t s h hs => ?_⟩
  · simp [ProgressTracker.progress, h]
  · by_cases hs : s = 0
    · simp [ProgressTracker.progress, h, hs]
    · simp [ProgressTracker.progress, h, hs]
  · simp [ProgressTracker.progress, h, hs]

/-- C8 witness: a tracker with total `200`, after `add(50)`, reports
`progress() == 25.0`. -/
theorem C8_progress_witness :
    ((ProgressTracker.new (Option.some 200)).add 50).progress
      = .ok (Option.some 25) := by
  have h := C8_progress_amended.2.2 ((ProgressTracker.new (Option.some 200)).add 50)
    200 rfl (by decide)
  rw [h]
  norm_num [ProgressTracker.new, ProgressTracker.add]

lemma compareLoop_mismatch {α : Type} :
    ∀ l : List ((String × Metric α) × (String × Metric α)),
    (∃ p ∈ l, pairMismatch p) → compareLoop l = .error cmpErr := by
  intro l h
  induction l with
  | nil => simp at h
  | cons q rest ih =>
      by_cases hq : pairMismatch q
      · simp only [compareLoop]
        rw [if_pos hq]
      · obtain ⟨p, hp, hm⟩ := h
        rcases List.mem_cons.mp hp with h1 | h1
        · exact absurd (h1 ▸ hm) hq
        · simp only [compareLoop]
          rw [if_neg hq]
          exact ih ⟨p, h1, hm⟩

/-- C2 counterexample: the claim fails for registries of different sizes.
`mlShort`'s registry has keys `["a"]` and `mlLong`'s has `["a", "b"]` —
different key sets — yet because the comparison zips the two registries
(truncating at the shorter), no `ConfigKind` error is raised: equality
silently returns `false` (the values at `"a"` differ) and so does
ordering. -/
theorem C2_counterexample :
    MetricList.eq mlShort mlLong = .ok false
  ∧ MetricList.gt mlShort mlLong = .ok false := ⟨rfl, rfl⟩

lemma compareLoop_ok {α : Type} :
    ∀ l : List ((String × Metric α) × (String × Metric α)),
    (∀ p ∈ l, ¬pairMismatch p) → compareLoop l = .ok () := by
  intro l h
  induction l with
  | nil => rfl
  | cons q rest ih =>
      simp only [compareLoop]
      rw [if_neg (h q (List.mem_cons_self _ _))]
      exact ih fun p hp => h p (List.mem_cons_of_mem _ hp)

/-- C2 amended: comparing two `MetricList` snapshots whose registries
mismatch at some *paired* position (a position within the common length
where the keys differ or the concrete metric types differ) raises the
`ConfigKind` error from both equality and ordering; conversely, when every
paired position matches — in particular when the shorter registry pairwise
matches a prefix of the longer one — the shape check `_compare_metrics`
passes and no `ConfigKind` error is raised, even though the key sets
differ (so equality can silently return `false`, as the counterexample
shows). -/
theorem C2_mismatch_raises {α : Type} [DecidableEq α] :
    (∀ self other : MetricList α,
       (∃ p ∈ self.metrics.zip other.metrics, pairMismatch p) →
       MetricList.eq self other = .error cmpErr
       ∧ MetricList.gt self other = .error cmpErr)
  ∧ (∀ self other : MetricList α,
       (∀ p ∈ self.metrics.zip other.metrics, ¬pairMismatch p) →
       MetricList._compare_metrics self other = .ok ()) := by
  constructor
  · intro self other h
    have hc : MetricList._compare_metrics self other = .error cmpErr :=
      compareLoop_mismatch _ h
    constructor
    · simp [MetricList.eq, hc]
    · simp [MetricList.gt, hc]
  · intro self other h
    exact compareLoop_ok _ h

/-- C2 witness: two snapshots over same-size registries with different keys
(`["x"]` vs `["y"]`) raise the `ConfigKind` error from both comparisons,
while the prefix-compatible pair `mlShort`/`mlLong` (keys `["a"]` vs
`["a", "b"]`) passes the shape check without error. -/
theorem C2_mismatch_raises_witness :
    (MetricList.eq mlNameX mlNameY = .error cmpErr
     ∧ MetricList.gt mlNameX mlNameY = .error cmpErr)
  ∧ MetricList._compare_metrics mlShort mlLong = .ok () :=
  ⟨C2_mismatch_raises.1 mlNameX mlNameY (by decide),
   C2_mismatch_raises.2 mlShort mlLong (by decide)⟩

lemma gtLoop_lexDecide {α : Type} (self other : MetricList α) :
    ∀ (l : List (String × Metric α)) (rs : List (Option Bool)),
    betterResults self other l = .ok rs →
    gtLoop self other l = .ok (lexDecide rs) := by
  intro l
  induction l with
  | nil =>
      intro rs h
      simp only [betterResults] at h
      cases h
      rfl
  | cons p rest ih =>
      intro rs h
      simp only [betterResults] at h
      split at h
      · exact absurd h (by simp)
      · rename_i a ha
        split at h
        · exact absurd h (by simp)
        · rename_i b hb
          split at h
          · exact absurd h (by simp)
          · rename_i rs' hr
            injection h with h2
            subst h2
            cases hbb : p.2.better a b with
            | some cmp => simp [gtLoop, ha, hb, hbb, lexDecide]
            | none =>
                simp only [gtLoop, ha, hb, hbb, lexDecide]
                exact ih rs' hr

/-- C4: `MetricList` ordering is lexicographic in registry order — whenever
the registries are compatible and all value lookups succeed with three-way
results `rs`, `__gt__` returns the first non-tie of `rs`, and `false` when
every metric ties (`lexDecide`). -/
theorem C4_lexicographic {α : Type} (self other : MetricList α)
    (rs : List (Option Bool))
    (hc : MetricList._compare_metrics self other = .ok ())
    (hr : betterResults self other self.metrics = .ok rs) :
    MetricList.gt self other = .ok (lexDecide rs) := by
  simp only [MetricList.gt, hc]
  exact gtLoop_lexDecide self other self.metrics rs hr

/-- C4 witness: for metrics `[A, B]` where `A.better` always ties and
`B.better` returns `true`, snapshot `mlLexX` compares greater than
`mlLexY`. -/
theorem C4_lexicographic_witness :
    MetricList.gt mlLexX mlLexY = .ok true := by
  have h := C4_lexicographic mlLexX mlLexY [Option.none, Option.some true]
    (by decide) (by decide)
  rw [h]
  rfl

lemma checkMetrics_other {α : Type} {l : List (MItem α)}
    (h : ∃ r t, MItem.other r t ∈ l) :
    ∃ t', checkMetrics l
      = .error ⟨.typeErr, "All metrics must be of class Metric, but found " ++ t'⟩ := by
  induction l with
  | nil =>
      obtain ⟨r, t, hm⟩ := h
      simp at hm
  | cons it rest ih =>
      cases it with
      | metric m =>
          obtain ⟨r, t, hm⟩ := h
          rcases List.mem_cons.mp hm with h1 | h1
          · exact MItem.noConfusion h1
          · simpa [checkMetrics] using ih ⟨r, t, h1⟩
      | other r' t' => exact ⟨t', by simp [checkMetrics]⟩

/-- C6 counterexample: the `TypeKind` error message does not name the
offending value — two inputs differing only in the offending value (`repr`
`"5"` vs `"6"`) produce the identical message, which names only the value's
type. -/
theorem C6_message_counterexample :
    to_metric_dict (.single (.plain (MItem.other "5" "int" : MItem Nat)))
      = .error ⟨.typeErr, "All metrics must be of class Metric, but found int"⟩
  ∧ to_metric_dict (.single (.plain (MItem.other "6" "int" : MItem Nat)))
      = .error ⟨.typeErr, "All metrics must be of class Metric, but found int"⟩ :=
  ⟨rfl, rfl⟩

/-- C6 amended: `to_metric_dict` fails with a `ConfigKind` error demanding
an order-preserving mapping whenever the raw input is a keyed mapping that
is not order-preserving, and fails with a `TypeKind` error naming the
actual type of the offending value whenever any value of the normalized
registry is not a `Metric`; in both cases no registry is returned. -/
theorem C6_metric_dict_errors {α : Type} :
    (∀ entries : OD (MItem α),
       to_metric_dict (.dict false entries)
         = .error ⟨.config, "Metrics dictionary must be of type OrderedDict"⟩)
  ∧ (∀ (spec : OptionalDict (MItem α)) (d : OD (MItem α)),
       isUnorderedDict spec = false →
       _to_dict metricUnambNameFn metricDefaultNameFn spec = .ok d →
       (∃ r t, MItem.other r t ∈ d.map Prod.snd) →
       ∃ t', to_metric_dict spec
         = .error ⟨.typeErr,
             "All metrics must be of class Metric, but found " ++ t'⟩) := by
  constructor
  · intro entries
    simp [to_metric_dict, isUnorderedDict]
  · intro spec d h0 h1 h2
    obtain ⟨t', hck⟩ := checkMetrics_other h2
    refine ⟨t', ?_⟩
    simp [to_metric_dict, h0, h1, hck]

/-- C6 witness: a concrete plain (unordered) mapping is rejected with the
`ConfigKind` error, and a concrete normalized registry containing a
non-metric value is rejected with the `TypeKind` error. -/
theorem C6_metric_dict_errors_witness :
    to_metric_dict (.dict false [("x", (MItem.other "5" "int" : MItem Nat))])
      = .error ⟨.config, "Metrics dictionary must be of type OrderedDict"⟩
  ∧ ∃ t', to_metric_dict (.single (.plain (MItem.other "7" "str" : MItem Nat)))
      = .error ⟨.typeErr, "All metrics must be of class Metric, but found " ++ t'⟩ :=
  ⟨C6_metric_dict_errors.1 _,
   C6_metric_dict_errors.2 (.single (.plain (MItem.other "7" "str")))
     [("str", MItem.other "7" "str")] rfl rfl ⟨"7", "str", by simp⟩⟩

lemma toDictLoop_step0 {α : Type}
    (u : String → α → Nat → Except ExecError String) (dfn : Nat → α → String)
    (it : SpecItem α) (rest : List (SpecItem α)) (idx : Nat) (d : OD α)
    (cnt : String → Nat) (name : String) (v : α)
    (hres : resolveItem dfn idx it = (name, v)) (h0 : cnt name = 0) :
    toDictLoop u dfn (it :: rest) idx d cnt
      = toDictLoop u dfn rest (idx + 1) (odInsert name v d)
          (counterBump cnt name) := by
  simp only [toDictLoop, hres]
  rw [if_pos h0]

lemma toDictLoop_step1 {α : Type} (f : String → α → Nat → String)
    (dfn : Nat → α → String)
    (it : SpecItem α) (rest : List (SpecItem α)) (idx : Nat) (d : OD α)
    (cnt : String → Nat) (name : String) (v prev : α)
    (hres : resolveItem dfn idx it = (name, v)) (h1 : cnt name = 1)
    (hlook : odLookup name d = Option.some prev) :
    toDictLoop (pureNameFn f) dfn (it :: rest) idx d cnt
      = toDictLoop (pureNameFn f) dfn rest (idx + 1)
          (odInsert (f name v 2) v
            (odErase name (odInsert (f name prev 1) prev d)))
          (counterBump cnt name) := by
  simp only [toDictLoop, hres]
  rw [if_neg (by omega : ¬cnt name = 0), if_pos h1, hlook, h1]
  rfl

lemma toDictLoop_step2 {α : Type} (f : String → α → Nat → String)
    (dfn : Nat → α → String)
    (it : SpecItem α) (rest : List (SpecItem α)) (idx : Nat) (d : OD α)
    (cnt : String → Nat) (name : String) (v : α)
    (hres : resolveItem dfn idx it = (name, v)) (ha : cnt name ≠ 0)
    (hb : cnt name ≠ 1) :
    toDictLoop (pureNameFn f) dfn (it :: rest) idx d cnt
      = toDictLoop (pureNameFn f) dfn rest (idx + 1)
          (odInsert (f name v (cnt name + 1)) v d)
          (counterBump cnt name) := by
  simp only [toDictLoop, hres]
  rw [if_neg ha, if_neg hb]
  rfl

/-- C3: in the normalizer's single pass, when a name is seen for the second
time the previously inserted entry is re-keyed to
`unambiguous_name_fn(name, previous_value, 1)` — the old key removed, the
re-inserted entry moved to the end — and the current item is inserted under
`unambiguous_name_fn(name, value, occurrence_count + 1)`; on the third or
any later occurrence the current item is appended directly under
`unambiguous_name_fn(name, value, occurrence_count + 1)` without re-renaming
any earlier entry (the freshness hypotheses say the generated keys do not
collide with existing keys). -/
theorem C3_collision_rekey {α : Type} (f : String → α → Nat → String)
    (dfn : Nat → α → String) :
    (∀ (it : SpecItem α) (rest : List (SpecItem α)) (idx : Nat) (d : OD α)
       (cnt : String → Nat) (name : String) (v prev : α),
       resolveItem dfn idx it = (name, v) →
       cnt name = 1 →
       odLookup name d = Option.some prev →
       f name prev 1 ∉ odKeys d → f name prev 1 ≠ name →
       f name v 2 ∉ odKeys d → f name v 2 ≠ f name prev 1 →
       toDictLoop (pureNameFn f) dfn (it :: rest) idx d cnt
         = toDictLoop (pureNameFn f) dfn rest (idx + 1)
             (odErase name d ++ [(f name prev 1, prev), (f name v 2, v)])
             (counterBump cnt name))
  ∧ (∀ (it : SpecItem α) (rest : List (SpecItem α)) (idx : Nat) (d : OD α)
       (cnt : String → Nat) (name : String) (v : α),
       resolveItem dfn idx it = (name, v) →
       2 ≤ cnt name →
       f name v (cnt name + 1) ∉ odKeys d →
       toDictLoop (pureNameFn f) dfn (it :: rest) idx d cnt
         = toDictLoop (pureNameFn f) dfn rest (idx + 1)
             (d ++ [(f name v (cnt name + 1), v)])
             (counterBump cnt name)) := by
  constructor
  · intro it rest idx d cnt name v prev hres h1 hlook hf1 hf1n hf2 hf21
    rw [toDictLoop_step1 f dfn it rest idx d cnt name v prev hres h1 hlook]
    have hk2 : f name v 2 ∉ odKeys (odErase name d ++ [(f name prev 1, prev)]) := by
      rw [odKeys_append]
      intro hm
      rcases List.mem_append.mp hm with hm1 | hm1
      · rw [odKeys_odErase] at hm1
        exact hf2 (List.mem_of_mem_erase hm1)
      · exact hf21 (by simpa [odKeys] using hm1)
    rw [odInsert_of_not_mem hf1, odErase_append_right d hf1n,
        odInsert_of_not_mem hk2, List.append_assoc]
    rfl
  · intro it rest idx d cnt name v hres h2 hf
    rw [toDictLoop_step2 f dfn it rest idx d cnt name v hres (by omega) (by omega),
        odInsert_of_not_mem hf]

/-- C3 witness: with the `.{count}` disambiguator, a second occurrence of
`"m"` re-keys the earlier `("m", 5)` entry to `("m.1", 5)` at the end and
appends `("m.2", 7)`; a third occurrence appends `("m.3", 9)` directly. -/
theorem C3_collision_rekey_witness :
    toDictLoop (pureNameFn fun n _ c => n ++ "." ++ toString c)
        (fun _ _ => "zzz") [SpecItem.pair "m" (7 : Nat)] 0
        [("x", 1), ("m", 5)] (fun s => if s = "m" then 1 else 0)
      = toDictLoop (pureNameFn fun n _ c => n ++ "." ++ toString c)
          (fun _ _ => "zzz") [] 1
          (odErase "m" [("x", 1), ("m", 5)] ++ [("m.1", 5), ("m.2", 7)])
          (counterBump (fun s => if s = "m" then 1 else 0) "m")
  ∧ toDictLoop (pureNameFn fun n _ c => n ++ "." ++ toString c)
        (fun _ _ => "zzz") [SpecItem.pair "m" (9 : Nat)] 0
        [("m.1", 5), ("m.2", 7)] (fun s => if s = "m" then 2 else 0)
      = toDictLoop (pureNameFn fun n _ c => n ++ "." ++ toString c)
          (fun _ _ => "zzz") [] 1
          ([("m.1", 5), ("m.2", 7)] ++ [("m.3", 9)])
          (counterBump (fun s => if s = "m" then 2 else 0) "m") :=
  ⟨(C3_collision_rekey (fun n _ c => n ++ "." ++ toString c)
      (fun _ _ => "zzz")).1 _ [] 0 _ _ "m" 7 5 rfl (by decide) (by decide)
      (by decide) (by decide) (by decide) (by decide),
   (C3_collision_rekey (fun n _ c => n ++ "." ++ toString c)
      (fun _ _ => "zzz")).2 _ [] 0 _ _ "m" 9 rfl (by decide) (by decide)⟩

lemma toDictLoop_size {α : Type} (f : String → α → Nat → String)
    (dfn : Nat → α → String) (S : List String) (V : List α) (N : Nat)
    (H1 : ∀ n ∈ S, ∀ n' ∈ S, ∀ v ∈ V, ∀ v' ∈ V, ∀ c ≤ N, ∀ c' ≤ N,
        f n v c = f n' v' c' → n = n' ∧ c = c')
    (H2 : ∀ n ∈ S, ∀ v ∈ V, ∀ c ≤ N, f n v c ∉ S) :
    ∀ (xs : List (SpecItem α)) (idx : Nat) (d : OD α) (cnt : String → Nat),
    (∀ nm ∈ baseNames dfn idx xs, nm ∈ S) →
    (∀ w ∈ itemValues xs, w ∈ V) →
    (∀ n, cnt n + xs.length ≤ N) →
    (odKeys d).Nodup →
    (∀ n, cnt n = 1 → n ∈ odKeys d) →
    (∀ k ∈ odKeys d, cnt k = 1 ∨
        ∃ n w j, n ∈ S ∧ w ∈ V ∧ 2 ≤ cnt n ∧ 1 ≤ j ∧ j ≤ cnt n ∧ k = f n w j) →
    (∀ p ∈ d, p.2 ∈ V) →
    (∀ n, cnt n ≠ 0 → n ∈ S) →
    ∃ d', toDictLoop (pureNameFn f) dfn xs idx d cnt = .ok d'
        ∧ d'.length = d.length + xs.length := by
  intro xs
  induction xs with
  | nil =>
      intro idx d cnt _ _ _ _ _ _ _ _
      exact ⟨d, rfl, by simp⟩
  | cons it rest ih =>
      intro idx d cnt hS hV hN hnd hI2 hI3 hI5 hI4
      rcases hres : resolveItem dfn idx it with ⟨name, v⟩
      have hbn : baseNames dfn idx (it :: rest)
          = name :: baseNames dfn (idx + 1) rest := by
        simp only [baseNames, hres]
      have hiv : itemValues (it :: rest) = v :: itemValues rest := by
        rw [itemValues_cons dfn idx, hres]
      have hnameS : name ∈ S := hS name (by rw [hbn]; exact List.mem_cons_self _ _)
      have hvV : v ∈ V := hV v (by rw [hiv]; exact List.mem_cons_self _ _)
      have hSrest : ∀ nm ∈ baseNames dfn (idx + 1) rest, nm ∈ S := by
        intro nm hm
        exact hS nm (by rw [hbn]; exact List.mem_cons_of_mem _ hm)
      have hVrest : ∀ w ∈ itemValues rest, w ∈ V := by
        intro w hm
        exact hV w (by rw [hiv]; exact List.mem_cons_of_mem _ hm)
      have hNn : ∀ n, cnt n + (rest.length + 1) ≤ N := by
        intro n
        have := hN n
        simpa using this
      have hcnt_le : ∀ n, cnt n ≤ N := fun n => by have := hNn n; omega
      by_cases h0 : cnt name = 0
      · -- first occurrence of the name: plain insertion of a fresh key
        have hfresh : name ∉ odKeys d := by
          intro hm
          rcases hI3 name hm with hc1 | ⟨n, w, j, hnS, hwV, h2c, hj1, hj2, he⟩
          · omega
          · exact H2 n hnS w hwV j (le_trans hj2 (hcnt_le n)) (he ▸ hnameS)
        have hins : odInsert name v d = d ++ [(name, v)] :=
          odInsert_of_not_mem hfresh
        obtain ⟨d', hrun, hlen⟩ := ih (idx + 1) (odInsert name v d)
          (counterBump cnt name) hSrest hVrest
          (by
            intro n
            by_cases hn : n = name
            · subst hn; rw [counterBump_self]; have := hNn n; omega
            · rw [counterBump_other hn]; have := hNn n; omega)
          (odKeys_odInsert_nodup hnd)
          (by
            intro n hcn
            by_cases hn : n = name
            · subst hn
              rw [hins, odKeys_append]
              exact List.mem_append_right _ (by simp [odKeys])
            · rw [counterBump_other hn] at hcn
              rw [hins, odKeys_append]
              exact List.mem_append_left _ (hI2 n hcn))
          (by
            intro k hk
            rw [hins, odKeys_append] at hk
            rcases List.mem_append.mp hk with hk1 | hk1
            · rcases hI3 k hk1 with hc1 | ⟨n, w, j, hnS, hwV, h2c, hj1, hj2, he⟩
              · left
                have hkname : k ≠ name := fun he2 => hfresh (he2 ▸ hk1)
                rw [counterBump_other hkname]
                exact hc1
              · right
                exact ⟨n, w, j, hnS, hwV, le_trans h2c (counterBump_ge cnt name n),
                  hj1, le_trans hj2 (counterBump_ge cnt name n), he⟩
            · have hke : k = name := by simpa [odKeys] using hk1
              subst hke
              left
              rw [counterBump_self]
              omega)
          (by
            intro p hp
            rw [hins] at hp
            rcases List.mem_append.mp hp with hp1 | hp1
            · exact hI5 p hp1
            · have hpe : p = (name, v) := by simpa using hp1
              rw [hpe]
              exact hvV)
          (by
            intro n hcn
            by_cases hn : n = name
            · subst hn; exact hnameS
            · rw [counterBump_other hn] at hcn
              exact hI4 n hcn)
        refine ⟨d', ?_, ?_⟩
        · rw [toDictLoop_step0 (pureNameFn f) dfn it rest idx d cnt name v hres h0]
          exact hrun
        · rw [hlen, hins]
          simp only [List.length_append, List.length_cons, List.length_nil]
          omega
      · by_cases h1 : cnt name = 1
        · -- second occurrence: the old entry is re-keyed, the new appended
          have hmem : name ∈ odKeys d := hI2 name h1
          obtain ⟨prev, hlook⟩ := odLookup_isSome hmem
          have hprevV : prev ∈ V := hI5 (name, prev) (odLookup_mem hlook)
          have h2N : 2 ≤ N := by have := hNn name; omega
          have h1N : 1 ≤ N := by omega
          have hk1S : f name prev 1 ∉ S := H2 name hnameS prev hprevV 1 h1N
          have hk2S : f name v 2 ∉ S := H2 name hnameS v hvV 2 h2N
          have hk1fresh : f name prev 1 ∉ odKeys d := by
            intro hm
            rcases hI3 _ hm with hc1 | ⟨n, w, j, hnS, hwV, h2c, hj1, hj2, he⟩
            · exact hk1S (hI4 _ (by omega))
            · obtain ⟨hnn, hjj⟩ := H1 name hnameS n hnS prev hprevV w hwV 1 h1N j
                (le_trans hj2 (hcnt_le n)) he
              rw [← hnn] at h2c
              omega
          have hk2fresh : f name v 2 ∉ odKeys d := by
            intro hm
            rcases hI3 _ hm with hc1 | ⟨n, w, j, hnS, hwV, h2c, hj1, hj2, he⟩
            · exact hk2S (hI4 _ (by omega))
            · obtain ⟨hnn, hjj⟩ := H1 name hnameS n hnS v hvV w hwV 2 h2N j
                (le_trans hj2 (hcnt_le n)) he
              rw [← hnn] at h2c
              omega
          have hk1name : f name prev 1 ≠ name :=
            fun he => hk1S (by rw [he]; exact hnameS)
          have hk2k1 : f name v 2 ≠ f name prev 1 := by
            intro he
            obtain ⟨_, hjj⟩ :=
              H1 name hnameS name hnameS v hvV prev hprevV 2 h2N 1 h1N he
            omega
          have hk2fresh2 :
              f name v 2 ∉ odKeys (odErase name d ++ [(f name prev 1, prev)]) := by
            rw [odKeys_append]
            intro hm
            rcases List.mem_append.mp hm with hm1 | hm1
            · rw [odKeys_odErase] at hm1
              exact hk2fresh (List.mem_of_mem_erase hm1)
            · exact hk2k1 (by simpa [odKeys] using hm1)
          have hE : odInsert (f name v 2) v
                (odErase name (odInsert (f name prev 1) prev d))
              = odErase name d ++ [(f name prev 1, prev), (f name v 2, v)] := by
            rw [odInsert_of_not_mem hk1fresh, odErase_append_right d hk1name,
                odInsert_of_not_mem hk2fresh2, List.append_assoc]
            rfl
          obtain ⟨d', hrun, hlen⟩ := ih (idx + 1)
            (odErase name d ++ [(f name prev 1, prev), (f name v 2, v)])
            (counterBump cnt name) hSrest hVrest
            (by
              intro n
              by_cases hn : n = name
              · subst hn; rw [counterBump_self]; have := hNn n; omega
              · rw [counterBump_other hn]; have := hNn n; omega)
            (by
              rw [← hE]
              exact odKeys_odInsert_nodup
                (odKeys_odErase_nodup (odKeys_odInsert_nodup hnd)))
            (by
              intro n hcn
              have hn : n ≠ name := by
                intro he
                subst he
                rw [counterBump_self] at hcn
                omega
              rw [counterBump_other hn] at hcn
              rw [odKeys_append, odKeys_odErase]
              exact List.mem_append_left _
                ((List.mem_erase_of_ne hn).mpr (hI2 n hcn)))
            (by
              intro k hk
              rw [odKeys_append, odKeys_odErase] at hk
              rcases List.mem_append.mp hk with hk1 | hk1
              · obtain ⟨hkne, hkd⟩ := (hnd.mem_erase_iff).mp hk1
                rcases hI3 k hkd with hc1 | ⟨n, w, j, hnS, hwV, h2c, hj1, hj2, he⟩
                · left
                  rw [counterBump_other hkne]
                  exact hc1
                · right
                  exact ⟨n, w, j, hnS, hwV, le_trans h2c (counterBump_ge cnt name n),
                    hj1, le_trans hj2 (counterBump_ge cnt name n), he⟩
              · right
                have hke : k = f name prev 1 ∨ k = f name v 2 := by
                  simpa [odKeys] using hk1
                rcases hke with hke | hke
                · exact ⟨name, prev, 1, hnameS, hprevV,
                    (by rw [counterBump_self]; omega), le_refl 1,
                    (by rw [counterBump_self]; omega), hke⟩
                · exact ⟨name, v, 2, hnameS, hvV,
                    (by rw [counterBump_self]; omega), (by omega),
                    (by rw [counterBump_self]; omega), hke⟩)
            (by
              intro p hp
              rcases List.mem_append.mp hp with hp1 | hp1
              · exact hI5 p (odErase_mem_sub hp1)
              · rcases List.mem_cons.mp hp1 with hp2 | hp2
                · rw [hp2]
                  exact hprevV
                · have hpe : p = (f name v 2, v) := by simpa using hp2
                  rw [hpe]
                  exact hvV)
            (by
              intro n hcn
              by_cases hn : n = name
              · subst hn; exact hnameS
              · rw [counterBump_other hn] at hcn
                exact hI4 n hcn)
          refine ⟨d', ?_, ?_⟩
          · rw [toDictLoop_step1 f dfn it rest idx d cnt name v prev hres h1 hlook,
              hE]
            exact hrun
          · rw [hlen]
            have hlen2 : (odErase name d).length + 1 = d.length :=
              odErase_length hmem
            simp only [List.length_append, List.length_cons, List.length_nil]
            omega
        · -- third or later occurrence: direct insertion of a fresh key
          have h2le : 2 ≤ cnt name := by omega
          have hcN : cnt name + 1 ≤ N := by have := hNn name; omega
          have hk2S : f name v (cnt name + 1) ∉ S := H2 name hnameS v hvV _ hcN
          have hk2fresh : f name v (cnt name + 1) ∉ odKeys d := by
            intro hm
            rcases hI3 _ hm with hc1 | ⟨n, w, j, hnS, hwV, h2c, hj1, hj2, he⟩
            · exact hk2S (hI4 _ (by omega))
            · obtain ⟨hnn, hjj⟩ := H1 name hnameS n hnS v hvV w hwV
                (cnt name + 1) hcN j (le_trans hj2 (hcnt_le n)) he
              rw [← hnn] at hj2
              omega
          have hins : odInsert (f name v (cnt name + 1)) v d
              = d ++ [(f name v (cnt name + 1), v)] :=
            odInsert_of_not_mem hk2fresh
          obtain ⟨d', hrun, hlen⟩ := ih (idx + 1)
            (d ++ [(f name v (cnt name + 1), v)])
            (counterBump cnt name) hSrest hVrest
            (by
              intro n
              by_cases hn : n = name
              · subst hn; rw [counterBump_self]; have := hNn n; omega
              · rw [counterBump_other hn]; have := hNn n; omega)
            (by
              rw [← hins]
              exact odKeys_odInsert_nodup hnd)
            (by
              intro n hcn
              have hn : n ≠ name := by
                intro he
                subst he
                rw [counterBump_self] at hcn
                omega
              rw [counterBump_other hn] at hcn
              rw [odKeys_append]
              exact List.mem_append_left _ (hI2 n hcn))
            (by
              intro k hk
              rw [odKeys_append] at hk
              rcases List.mem_append.mp hk with hk1 | hk1
              · rcases hI3 k hk1 with hc1 | ⟨n, w, j, hnS, hwV, h2c, hj1, hj2, he⟩
                · left
                  have hkne : k ≠ name := by
                    intro he2
                    subst he2
                    omega
                  rw [counterBump_other hkne]
                  exact hc1
                · right
                  exact ⟨n, w, j, hnS, hwV, le_trans h2c (counterBump_ge cnt name n),
                    hj1, le_trans hj2 (counterBump_ge cnt name n), he⟩
              · right
                have hke : k = f name v (cnt name + 1) := by
                  simpa [odKeys] using hk1
                exact ⟨name, v, cnt name + 1, hnameS, hvV,
                  (by rw [counterBump_self]; omega), (by omega),
                  (by rw [counterBump_self]), hke⟩)
            (by
              intro p hp
              rcases List.mem_append.mp hp with hp1 | hp1
              · exact hI5 p hp1
              · have hpe : p = (f name v (cnt name + 1), v) := by simpa using hp1
                rw [hpe]
                exact hvV)
            (by
              intro n hcn
              by_cases hn : n = name
              · subst hn; exact hnameS
              · rw [counterBump_other hn] at hcn
                exact hI4 n hcn)
          refine ⟨d', ?_, ?_⟩
          · rw [toDictLoop_step2 f dfn it rest idx d cnt name v hres h0 h1, hins]
            exact hrun
          · rw [hlen]
            simp only [List.length_append, List.length_cons, List.length_nil]
            omega

/-- C1 counterexample: the claim quantifies over *every* pair of naming
functions, but with an `unambiguous_name_fn` that returns the name
unchanged, normalizing the two-item list `[5, 5]` yields a registry with a
single entry — the size does not equal the item count. -/
theorem C1_counterexample :
    _to_dict (pureNameFn fun n _ _ => n) (fun _ _ => "m")
        (.list [.plain (5 : Nat), .plain 5]) = .ok [("m", 5)]
  ∧ specItemCount (OptionalDict.list [SpecItem.plain (5 : Nat), .plain 5]) = 2 :=
  ⟨by decide, rfl⟩

/-- C1 amended: for every valid input spec, the registry returned by the
normalizer has no duplicate keys; and its number of entries equals the
number of input items provided the naming functions are collision-free on
the input — `unambiguous_name_fn` is injective in `(name, count)` and never
returns one of the input's base names. -/
theorem C1_size_nodup {α : Type} (f : String → α → Nat → String)
    (dfn : Nat → α → String) (spec : OptionalDict α)
    (H1 : ∀ n ∈ specBaseNames dfn spec, ∀ n' ∈ specBaseNames dfn spec,
        ∀ v ∈ specValues spec, ∀ v' ∈ specValues spec,
        ∀ c ≤ specItemCount spec, ∀ c' ≤ specItemCount spec,
        f n v c = f n' v' c' → n = n' ∧ c = c')
    (H2 : ∀ n ∈ specBaseNames dfn spec, ∀ v ∈ specValues spec,
        ∀ c ≤ specItemCount spec, f n v c ∉ specBaseNames dfn spec)
    (Hv : specValid spec) :
    ∃ d, _to_dict (pureNameFn f) dfn spec = .ok d
      ∧ (odKeys d).Nodup ∧ d.length = specItemCount spec := by
  cases spec with
  | none => exact ⟨[], rfl, by simp [odKeys], rfl⟩
  | dict b e =>
      have Hv' : (odKeys e).Nodup := Hv
      refine ⟨e, ?_, Hv', rfl⟩
      simp [_to_dict, odFromList_eq Hv']
  | list items =>
      obtain ⟨d, hrun, hlen⟩ := toDictLoop_size f dfn
        (baseNames dfn 0 items) (itemValues items) items.length H1 H2 items 0
        [] (fun _ => 0) (fun nm hm => hm) (fun w hw => hw)
        (by intro n; simp)
        (by simp [odKeys])
        (by intro n h; simp at h)
        (by intro k hk; simp [odKeys] at hk)
        (by intro p hp; simp at hp)
        (by intro n h; simp at h)
      have hrun2 : _to_dict (pureNameFn f) dfn (.list items) = .ok d := hrun
      exact ⟨d, hrun, _to_dict_nodup hrun2,
        by rw [hlen]; simp [specItemCount]⟩
  | single it =>
      obtain ⟨d, hrun, hlen⟩ := toDictLoop_size f dfn
        (baseNames dfn 0 [it]) (itemValues [it]) 1 H1 H2 [it] 0
        [] (fun _ => 0) (fun nm hm => hm) (fun w hw => hw)
        (by intro n; simp)
        (by simp [odKeys])
        (by intro n h; simp at h)
        (by intro k hk; simp [odKeys] at hk)
        (by intro p hp; simp at hp)
        (by intro n h; simp at h)
      have hrun2 : _to_dict (pureNameFn f) dfn (.single it) = .ok d := hrun
      exact ⟨d, hrun, _to_dict_nodup hrun2,
        by rw [hlen]; simp [specItemCount]⟩

/-- C1 witness: normalizing `[5, 5, 5]` under the `.{count}` disambiguator
and constant default name `"m"` (collision-free on this input) yields a
registry with unique keys whose size equals the item count `3`. -/
theorem C1_size_nodup_witness :
    ∃ d, _to_dict (pureNameFn fun n _ c => n ++ "." ++ toString c)
        (fun _ _ => "m") (.list [.plain (5 : Nat), .plain 5, .plain 5])
        = .ok d
      ∧ (odKeys d).Nodup
      ∧ d.length = specItemCount
          (OptionalDict.list [SpecItem.plain (5 : Nat), .plain 5, .plain 5]) :=
  C1_size_nodup (fun n _ c => n ++ "." ++ toString c) (fun _ _ => "m")
    (.list [.plain 5, .plain 5, .plain 5]) (by decide) (by decide) trivial
